import Mathlib

/- Shallow embedding of the SKESA pairwise-alignment header `glb_align.hpp`
   (namespace DeBruijn): the packed score accumulator `CScore`, the CIGAR
   descriptor base `CCigarBase`/`CCigar`, the `EditDistance` template, and a
   spec-modelled version of the alignment entry points whose implementations
   are not part of the provided sources. -/

/-- Two's-complement wrap of an unbounded integer into the `int32_t` range. -/
def toInt32 (x : Int) : Int := (x + 2 ^ 31) % 2 ^ 32 - 2 ^ 31

/-- Two's-complement wrap of an unbounded integer into the `int64_t` range. -/
def toInt64 (x : Int) : Int := (x + 2 ^ 63) % 2 ^ 64 - 2 ^ 63

theorem toInt64_bounds (x : Int) : -(2 ^ 63) ≤ toInt64 x ∧ toInt64 x < 2 ^ 63 := by
  unfold toInt64
  have h1 : 0 ≤ (x + 2 ^ 63) % 2 ^ 64 := Int.emod_nonneg _ (by norm_num)
  have h2 : (x + 2 ^ 63) % 2 ^ 64 < 2 ^ 64 := Int.emod_lt_of_pos _ (by norm_num)
  norm_num at h1 h2 ⊢
  constructor <;> linarith

theorem toInt64_id {x : Int} (h1 : -(2 ^ 63) ≤ x) (h2 : x < 2 ^ 63) : toInt64 x = x := by
  unfold toInt64
  rw [Int.emod_eq_of_lt (by linarith) (by linarith)]
  ring

theorem toInt32_id {x : Int} (h1 : -(2 ^ 31) ≤ x) (h2 : x < 2 ^ 31) : toInt32 x = x := by
  unfold toInt32
  rw [Int.emod_eq_of_lt (by linarith) (by linarith)]
  ring

/-- Embedding of `class CScore`: the single packed field `int64_t m_score`,
    together with the range invariant every `int64_t` value satisfies. -/
structure CScore where
  m_score : Int
  hrange : -(2 ^ 63) ≤ m_score ∧ m_score < 2 ^ 63

theorem CScore.ext2 : ∀ {a b : CScore}, a.m_score = b.m_score → a = b := by
  intro a b h
  cases a
  cases b
  simp_all

/-- Embedding of the default constructor `CScore() : m_score(0)`. -/
def CScore.zero : CScore := ⟨0, by norm_num⟩

/-- Embedding of `CScore(int32_t score, int32_t breaker)
    : m_score((int64_t(score) << 32) + breaker)`.  The two arguments pass
    through the `int32_t` parameter conversion; the packing arithmetic is
    `int64_t`. -/
def CScore.make (score breaker : Int) : CScore :=
  ⟨toInt64 (toInt32 score * 2 ^ 32 + toInt32 breaker), toInt64_bounds _⟩

/-- Embedding of `bool operator>(const CScore&)`: `m_score > other.m_score`. -/
def CScore.gt (a b : CScore) : Bool := decide (b.m_score < a.m_score)

/-- Embedding of `bool operator>=(const CScore&)`: `m_score >= other.m_score`. -/
def CScore.ge (a b : CScore) : Bool := decide (b.m_score ≤ a.m_score)

/-- Embedding of `operator+` and `operator+=`: both compute
    `m_score + other.m_score` in `int64_t` (64-bit wrapping sum). -/
def CScore.add (a b : CScore) : CScore :=
  ⟨toInt64 (a.m_score + b.m_score), toInt64_bounds _⟩

/-- Embedding of `int32_t Score() const { return (m_score >> 32); }`:
    an arithmetic right shift of an `int64_t` by 32 is floor division. -/
def CScore.Score (a : CScore) : Int := Int.fdiv a.m_score (2 ^ 32)

/-- For in-32-bit-range score and nonnegative in-range tiebreaker the packed
    field is exactly `score * 2^32 + breaker` (no wrap occurs). -/
theorem CScore.make_m_score {s t : Int} (hs1 : -(2 ^ 31) ≤ s) (hs2 : s < 2 ^ 31)
    (ht1 : 0 ≤ t) (ht2 : t < 2 ^ 31) :
    (CScore.make s t).m_score = s * 2 ^ 32 + t := by
  show toInt64 (toInt32 s * 2 ^ 32 + toInt32 t) = s * 2 ^ 32 + t
  rw [toInt32_id hs1 hs2, toInt32_id (by linarith) (by linarith)]
  apply toInt64_id <;> nlinarith

/-- Unpacking: floor-dividing `s * 2^32 + t` by `2^32` recovers `s` when
    `0 ≤ t < 2^32`. -/
theorem fdiv_pack {s t : Int} (ht1 : 0 ≤ t) (ht2 : t < 2 ^ 32) :
    Int.fdiv (s * 2 ^ 32 + t) (2 ^ 32) = s := by
  rw [Int.fdiv_eq_ediv _ (by norm_num)]
  rw [add_comm, Int.add_mul_ediv_right _ _ (by norm_num : (2 : Int) ^ 32 ≠ 0)]
  rw [Int.ediv_eq_zero_of_lt ht1 ht2]
  ring

/-- Packing strictly respects a strict inequality of the primary scores when
    both tie-breakers lie in the unsigned 32-bit field. -/
theorem pack_lt_pack {s1 t1 s2 t2 : Int} (h : s1 < s2) (ht1l : 0 ≤ t1)
    (ht1u : t1 < 2 ^ 32) (ht2l : 0 ≤ t2) :
    s1 * 2 ^ 32 + t1 < s2 * 2 ^ 32 + t2 := by
  have hm : (s1 + 1) * 2 ^ 32 ≤ s2 * 2 ^ 32 :=
    mul_le_mul_of_nonneg_right (by linarith) (by norm_num)
  nlinarith

/-- C1: for 32-bit signed scores and tie-breakers in `[0, 2^31)` the ordering
    `CScore(s1, t1) > CScore(s2, t2)` is lexicographic: it holds iff
    `s1 > s2`, or `s1 = s2` and `t1 > t2`; in particular also for negative
    scores. -/
theorem claim_C1_order_lexicographic (s1 t1 s2 t2 : Int)
    (hs1l : -(2 ^ 31) ≤ s1) (hs1u : s1 < 2 ^ 31)
    (hs2l : -(2 ^ 31) ≤ s2) (hs2u : s2 < 2 ^ 31)
    (ht1l : 0 ≤ t1) (ht1u : t1 < 2 ^ 31)
    (ht2l : 0 ≤ t2) (ht2u : t2 < 2 ^ 31) :
    CScore.gt (CScore.make s1 t1) (CScore.make s2 t2) = true ↔
      (s2 < s1 ∨ (s1 = s2 ∧ t2 < t1)) := by
  unfold CScore.gt
  rw [CScore.make_m_score hs1l hs1u ht1l ht1u, CScore.make_m_score hs2l hs2u ht2l ht2u]
  simp only [decide_eq_true_eq]
  constructor
  · intro h
    rcases lt_trichotomy s1 s2 with hlt | heq | hgt
    · exact absurd (pack_lt_pack hlt ht1l (by linarith) ht2l) (by linarith)
    · subst heq
      right
      exact ⟨rfl, by linarith⟩
    · left; exact hgt
  · rintro (h | ⟨heq, ht⟩)
    · exact pack_lt_pack h ht2l (by linarith) ht1l
    · subst heq; linarith

/-- C1 witness: the ordering theorem applied at the concrete input
    `CScore(-3, 7) > CScore(-3, 2)`. -/
theorem claim_C1_order_lexicographic_witness :
    -(2 ^ 31) ≤ (-3 : Int) ∧
    (CScore.gt (CScore.make (-3) 7) (CScore.make (-3) 2) = true ↔
      ((-3 : Int) < -3 ∨ ((-3 : Int) = -3 ∧ (2 : Int) < 7))) :=
  ⟨by norm_num,
   claim_C1_order_lexicographic (-3) 7 (-3) 2 (by norm_num) (by norm_num)
     (by norm_num) (by norm_num) (by norm_num) (by norm_num) (by norm_num)
     (by norm_num)⟩

/-- C7: for every 32-bit signed score, also negative, and tie-breaker in
    `[0, 2^31)`, extraction by arithmetic right shift recovers the score:
    `CScore(s, t).Score() = s`. -/
theorem claim_C7_score_extraction (s t : Int)
    (hsl : -(2 ^ 31) ≤ s) (hsu : s < 2 ^ 31) (htl : 0 ≤ t) (htu : t < 2 ^ 31) :
    (CScore.make s t).Score = s := by
  unfold CScore.Score
  rw [CScore.make_m_score hsl hsu htl htu]
  exact fdiv_pack htl (by linarith)

/-- C7 witness: extraction at the concrete negative score `-7`. -/
theorem claim_C7_score_extraction_witness :
    -(2 ^ 31) ≤ (-7 : Int) ∧ (CScore.make (-7) 5).Score = -7 :=
  ⟨by norm_num,
   claim_C7_score_extraction (-7) 5 (by norm_num) (by norm_num) (by norm_num)
     (by norm_num)⟩

/-- C6: under in-range inputs, addition of packed accumulators is
    componentwise: `CScore(s1, t1) + CScore(s2, t2) = CScore(s1+s2, t1+t2)`. -/
theorem claim_C6_add_componentwise (s1 t1 s2 t2 : Int)
    (hs1l : -(2 ^ 31) ≤ s1) (hs1u : s1 < 2 ^ 31)
    (hs2l : -(2 ^ 31) ≤ s2) (hs2u : s2 < 2 ^ 31)
    (ht1l : 0 ≤ t1) (ht1u : t1 < 2 ^ 31)
    (ht2l : 0 ≤ t2) (ht2u : t2 < 2 ^ 31)
    (hsuml : -(2 ^ 31) ≤ s1 + s2) (hsumu : s1 + s2 < 2 ^ 31)
    (htsum : t1 + t2 < 2 ^ 31) :
    CScore.add (CScore.make s1 t1) (CScore.make s2 t2) =
      CScore.make (s1 + s2) (t1 + t2) := by
  apply CScore.ext2
  have h1 := CScore.make_m_score hs1l hs1u ht1l ht1u
  have h2 := CScore.make_m_score hs2l hs2u ht2l ht2u
  have h3 := CScore.make_m_score hsuml hsumu (by linarith) htsum
  show toInt64 ((CScore.make s1 t1).m_score + (CScore.make s2 t2).m_score) =
    (CScore.make (s1 + s2) (t1 + t2)).m_score
  rw [h1, h2, h3,
    show s1 * 2 ^ 32 + t1 + (s2 * 2 ^ 32 + t2) = (s1 + s2) * 2 ^ 32 + (t1 + t2) by ring]
  apply toInt64_id <;> nlinarith

/-- C6 witness: componentwise addition at `CScore(3, 5) + CScore(-9, 11)`. -/
theorem claim_C6_add_componentwise_witness :
    -(2 ^ 31) ≤ (3 : Int) ∧
    CScore.add (CScore.make 3 5) (CScore.make (-9) 11) =
      CScore.make (3 + -9) (5 + 11) :=
  ⟨by norm_num,
   claim_C6_add_componentwise 3 5 (-9) 11 (by norm_num) (by norm_num)
     (by norm_num) (by norm_num) (by norm_num) (by norm_num) (by norm_num)
     (by norm_num) (by norm_num) (by norm_num) (by norm_num)⟩

/-- C10: the default-constructed accumulator equals `CScore(0, 0)`, its
    `Score()` is `0`, and it is the additive identity: `CScore() + x`
    compares equal to `x` in both directions of `>=`, and adding `CScore()`
    on the right leaves `x` unchanged. -/
theorem claim_C10_default_identity :
    CScore.zero = CScore.make 0 0 ∧ CScore.zero.Score = 0 ∧
    ∀ x : CScore,
      CScore.ge (CScore.add CScore.zero x) x = true ∧
      CScore.ge x (CScore.add CScore.zero x) = true ∧
      CScore.add x CScore.zero = x := by
  refine ⟨by apply CScore.ext2; decide, by decide, ?_⟩
  intro x
  have hx := x.hrange
  have hadd : CScore.add CScore.zero x = x := by
    apply CScore.ext2
    show toInt64 (0 + x.m_score) = x.m_score
    rw [zero_add]
    exact toInt64_id hx.1 hx.2
  have hadd2 : CScore.add x CScore.zero = x := by
    apply CScore.ext2
    show toInt64 (x.m_score + 0) = x.m_score
    rw [add_zero]
    exact toInt64_id hx.1 hx.2
  rw [hadd]
  refine ⟨?_, ?_, hadd2⟩ <;> simp [CScore.ge]

/-- C8: the `tiebreaker >= 0` precondition is unchecked yet necessary.
    First conjunct: with nonnegative in-range tie-breakers, extraction
    recovers the score and the comparison agrees with the primary score
    whenever the primary scores differ.  Second and third conjunct: the
    construction `CScore(5, -1)` is accepted unchecked — its packed field is
    `5 * 2^32 - 1` — and its extracted score is corrupted (not `5`). -/
theorem claim_C8_negative_tiebreaker_corrupts :
    (∀ s1 t1 s2 t2 : Int, -(2 ^ 31) ≤ s1 → s1 < 2 ^ 31 → -(2 ^ 31) ≤ s2 →
      s2 < 2 ^ 31 → 0 ≤ t1 → t1 < 2 ^ 31 → 0 ≤ t2 → t2 < 2 ^ 31 →
      (CScore.make s1 t1).Score = s1 ∧
      (s1 ≠ s2 →
        (CScore.gt (CScore.make s1 t1) (CScore.make s2 t2) = true ↔ s2 < s1))) ∧
    (CScore.make 5 (-1)).m_score = 5 * 2 ^ 32 - 1 ∧
    (CScore.make 5 (-1)).Score ≠ 5 := by
  refine ⟨?_, by decide, by decide⟩
  intro s1 t1 s2 t2 hs1l hs1u hs2l hs2u ht1l ht1u ht2l ht2u
  constructor
  · unfold CScore.Score
    rw [CScore.make_m_score hs1l hs1u ht1l ht1u]
    exact fdiv_pack ht1l (by linarith)
  · intro hne
    unfold CScore.gt
    rw [CScore.make_m_score hs1l hs1u ht1l ht1u,
      CScore.make_m_score hs2l hs2u ht2l ht2u]
    simp only [decide_eq_true_eq]
    constructor
    · intro h
      rcases lt_trichotomy s1 s2 with hlt | heq | hgt
      · exact absurd (pack_lt_pack hlt ht1l (by linarith) ht2l) (by linarith)
      · exact absurd heq hne
      · exact hgt
    · intro h
      exact pack_lt_pack h ht2l (by linarith) ht1l

/-- C8 witness: the universal preservation part applied at the concrete
    scores `7 > -2` with tie-breakers `1` and `3`. -/
theorem claim_C8_negative_tiebreaker_corrupts_witness :
    -(2 ^ 31) ≤ (7 : Int) ∧
    ((CScore.make 7 1).Score = 7 ∧
      ((7 : Int) ≠ -2 →
        (CScore.gt (CScore.make 7 1) (CScore.make (-2) 3) = true ↔ (-2 : Int) < 7))) :=
  ⟨by norm_num,
   claim_C8_negative_tiebreaker_corrupts.1 7 1 (-2) 3 (by norm_num) (by norm_num)
     (by norm_num) (by norm_num) (by norm_num) (by norm_num) (by norm_num)
     (by norm_num)⟩

/-- C3 counterexample: accumulation performs no overflow detection.  Three
    accumulators, each carrying primary score `0` and tie-breaker `2^31 - 1`,
    are summed with `operator+`; the operator returns normally and the
    tie-breaker overflow is silently carried into the primary score, which
    becomes `1`. -/
theorem claim_C3_counterexample :
    (CScore.make 0 (2 ^ 31 - 1)).Score = 0 ∧
    (CScore.add (CScore.make 0 (2 ^ 31 - 1))
      (CScore.add (CScore.make 0 (2 ^ 31 - 1)) (CScore.make 0 (2 ^ 31 - 1)))).Score
      = 1 := by
  constructor <;> decide

/-- A 64-bit wrap of a sum may be computed with an already wrapped right
    summand. -/
theorem toInt64_add_right (x y : Int) : toInt64 (x + toInt64 y) = toInt64 (x + y) := by
  unfold toInt64
  have h64 : (2 : Int) ^ 64 = 18446744073709551616 := by norm_num
  have h63 : (2 : Int) ^ 63 = 9223372036854775808 := by norm_num
  rw [h64, h63]
  omega

/-- C3 amended: the accumulation operators perform no overflow check and
    never fail; they compute the wrapping 64-bit sum of the packed values, so
    once the accumulated tie-breakers reach `2^32` the excess silently
    carries into the primary score: accumulating three in-range accumulators
    whose tie-breakers sum past `2^32` yields primary score
    `s1 + s2 + s3 + 1`. -/
theorem claim_C3_amended (s1 t1 s2 t2 s3 t3 : Int)
    (hs1l : -(2 ^ 31) ≤ s1) (hs1u : s1 < 2 ^ 31)
    (hs2l : -(2 ^ 31) ≤ s2) (hs2u : s2 < 2 ^ 31)
    (hs3l : -(2 ^ 31) ≤ s3) (hs3u : s3 < 2 ^ 31)
    (ht1l : 0 ≤ t1) (ht1u : t1 < 2 ^ 31)
    (ht2l : 0 ≤ t2) (ht2u : t2 < 2 ^ 31)
    (ht3l : 0 ≤ t3) (ht3u : t3 < 2 ^ 31)
    (hcarry : 2 ^ 32 ≤ t1 + t2 + t3)
    (hsl : -(2 ^ 31) ≤ s1 + s2 + s3) (hsu : s1 + s2 + s3 + 1 < 2 ^ 31) :
    (CScore.add (CScore.make s1 t1)
      (CScore.add (CScore.make s2 t2) (CScore.make s3 t3))).Score
      = s1 + s2 + s3 + 1 := by
  have h1 := CScore.make_m_score hs1l hs1u ht1l ht1u
  have h2 := CScore.make_m_score hs2l hs2u ht2l ht2u
  have h3 := CScore.make_m_score hs3l hs3u ht3l ht3u
  unfold CScore.Score
  show Int.fdiv (toInt64 ((CScore.make s1 t1).m_score +
    toInt64 ((CScore.make s2 t2).m_score + (CScore.make s3 t3).m_score))) (2 ^ 32) = _
  rw [toInt64_add_right, h1, h2, h3]
  have hsum : s1 * 2 ^ 32 + t1 + (s2 * 2 ^ 32 + t2 + (s3 * 2 ^ 32 + t3)) =
      (s1 + s2 + s3 + 1) * 2 ^ 32 + (t1 + t2 + t3 - 2 ^ 32) := by ring
  rw [hsum, toInt64_id (by nlinarith) (by nlinarith)]
  exact fdiv_pack (by linarith) (by linarith)

/-- C3 amended witness: the carry theorem at three accumulators with score 0
    and tie-breaker `2^31 - 1`; the resulting primary score is 1. -/
theorem claim_C3_amended_witness :
    (0 : Int) ≤ 2 ^ 31 - 1 ∧
    (CScore.add (CScore.make 0 (2 ^ 31 - 1))
      (CScore.add (CScore.make 0 (2 ^ 31 - 1)) (CScore.make 0 (2 ^ 31 - 1)))).Score
      = 0 + 0 + 0 + 1 :=
  ⟨by norm_num,
   claim_C3_amended 0 (2 ^ 31 - 1) 0 (2 ^ 31 - 1) 0 (2 ^ 31 - 1) (by norm_num)
     (by norm_num) (by norm_num) (by norm_num) (by norm_num) (by norm_num)
     (by norm_num) (by norm_num) (by norm_num) (by norm_num) (by norm_num)
     (by norm_num) (by norm_num) (by norm_num) (by norm_num)⟩

/-- Embedding of `struct SElement { int m_len; char m_type; }`. -/
structure SElement where
  m_len : Int
  m_type : Char

/-- Embedding of the data members of `class CCigarBase`: the element list
    and the closed coordinate quadruple. -/
structure CCigarBase where
  m_elements : List SElement
  m_qfrom : Int
  m_qto : Int
  m_sfrom : Int
  m_sto : Int

/-- Embedding of the constructor `CCigarBase(int qto, int sto)
    : m_qfrom(qto+1), m_qto(qto), m_sfrom(sto+1), m_sto(sto)` with the
    element list default-initialized empty. -/
def CCigarBase.make (qto sto : Int) : CCigarBase :=
  ⟨[], qto + 1, qto, sto + 1, sto⟩

/-- Embedding of `TRange QueryRange() const`. -/
def CCigarBase.QueryRange (c : CCigarBase) : Int × Int := (c.m_qfrom, c.m_qto)

/-- `class CCigar` only adds read-only operations to `CCigarBase`. -/
abbrev CCigar := CCigarBase

/-- Embedding of `TRange CCigar::SubjectRange() const`. -/
def CCigar.SubjectRange (c : CCigar) : Int × Int := (c.m_sfrom, c.m_sto)

/-- C5: a freshly constructed descriptor `CCigarBase(qto, sto)` is in the
    empty-span sentinel state: empty element list, `QueryRange() = (qto+1,
    qto)`, `SubjectRange() = (sto+1, sto)`, and both ranges are inverted
    (`to < from`). -/
theorem claim_C5_fresh_descriptor_sentinel (qto sto : Int) :
    (CCigarBase.make qto sto).m_elements = [] ∧
    CCigarBase.QueryRange (CCigarBase.make qto sto) = (qto + 1, qto) ∧
    CCigar.SubjectRange (CCigarBase.make qto sto) = (sto + 1, sto) ∧
    (CCigarBase.QueryRange (CCigarBase.make qto sto)).2 <
      (CCigarBase.QueryRange (CCigarBase.make qto sto)).1 ∧
    (CCigar.SubjectRange (CCigarBase.make qto sto)).2 <
      (CCigar.SubjectRange (CCigarBase.make qto sto)).1 := by
  refine ⟨rfl, rfl, rfl, ?_, ?_⟩ <;>
    simp [CCigarBase.make, CCigarBase.QueryRange, CCigar.SubjectRange]

section EditDistanceModel

variable {α : Type} [DecidableEq α]

/-- Embedding of the inner `for (j ...)` loop of `EditDistance`: given the
    remaining subject suffix, the suffix of `prevCol` starting at index `j`,
    and the value `col[j]` already computed (`left`), produce the entries
    `col[j+1 ..]` of the current column. -/
def nextColAux (c1 : α) : List α → List Nat → Nat → List Nat
  | [], _, _ => []
  | c2 :: s2t, pj :: pj1 :: pt, left =>
      let v := min (min (left + 1) (pj1 + 1)) (pj + if c1 = c2 then 0 else 1)
      v :: nextColAux c1 s2t (pj1 :: pt) v
  | _ :: _, _, _ => []

/-- Embedding of the outer `for (i ...)` loop of `EditDistance`: fold over
    the remaining `s1` suffix, carrying `prevCol` and the row counter `i`. -/
def editLoop (s2 : List α) : List α → List Nat → Nat → List Nat
  | [], prevCol, _ => prevCol
  | c1 :: s1t, prevCol, i =>
      editLoop s2 s1t ((i + 1) :: nextColAux c1 s2 prevCol (i + 1)) (i + 1)

/-- Embedding of `template<class T> int EditDistance(const T& s1, const T& s2)`:
    initialize `prevCol[i] = i`, run the row loop, return `prevCol[len2]`. -/
def EditDistance (s1 s2 : List α) : Nat :=
  (editLoop s2 s1 (List.range (s2.length + 1)) 0).getD s2.length 0

/-- Reference definition for C9, following the claim's words: the unit-cost
    Levenshtein recursion on last symbols — distance to an empty sequence is
    the other's length, otherwise the minimum of insertion + 1, deletion + 1,
    and the recursive distance plus 0/1 depending on the last symbols. -/
def levRef (s1 s2 : List α) : Nat :=
  if h1 : s1 = [] then s2.length
  else if h2 : s2 = [] then s1.length
  else
    min (min (levRef s1 s2.dropLast + 1) (levRef s1.dropLast s2 + 1))
      (levRef s1.dropLast s2.dropLast +
        if s1.getLast h1 = s2.getLast h2 then 0 else 1)
termination_by s1.length + s2.length
decreasing_by
  all_goals
    have h1p : 0 < s1.length := List.length_pos.mpr h1
    have h2p : 0 < s2.length := List.length_pos.mpr h2
    simp only [List.length_dropLast]
    omega

theorem levRef_nil_left (s : List α) : levRef [] s = s.length := by
  unfold levRef
  simp

theorem levRef_nil_right (s : List α) : levRef s [] = s.length := by
  unfold levRef
  by_cases h : s = [] <;> simp [h]

theorem levRef_concat_concat (v w : List α) (a b : α) :
    levRef (v ++ [a]) (w ++ [b]) =
      min (min (levRef (v ++ [a]) w + 1) (levRef v (w ++ [b]) + 1))
        (levRef v w + if a = b then 0 else 1) := by
  have hv : v ++ [a] ≠ [] := by simp
  have hw : w ++ [b] ≠ [] := by simp
  rw [levRef, dif_neg hv, dif_neg hw]
  simp [List.dropLast_concat, List.getLast_concat]

theorem levRef_self (s : List α) : levRef s s = 0 := by
  induction s using List.reverseRecOn with
  | nil => simp [levRef_nil_left]
  | append_singleton l a ih =>
    have h := levRef_concat_concat l l a a
    rw [ih] at h
    simp at h
    omega

/-- The DP row whose entries are the reference distances `levRef v (w ++ p)`
    for successive prefixes `p` of `t` (including the empty prefix). -/
def rowOf (v : List α) : List α → List α → List Nat
  | w, [] => [levRef v w]
  | w, c :: t => levRef v w :: rowOf v (w ++ [c]) t

theorem rowOf_shape (v w : List α) (t : List α) :
    rowOf v w t = levRef v w :: (rowOf v w t).tail := by
  cases t <;> rfl

theorem nextColAux_rowOf (c1 : α) (v : List α) :
    ∀ (t w : List α),
      nextColAux c1 t (rowOf v w t) (levRef (v ++ [c1]) w) =
        (rowOf (v ++ [c1]) w t).tail := by
  intro t
  induction t with
  | nil => intro w; rfl
  | cons c2 t2 ih =>
    intro w
    have hshape : rowOf v w (c2 :: t2) =
        levRef v w :: levRef v (w ++ [c2]) :: (rowOf v (w ++ [c2]) t2).tail := by
      conv_lhs =>
        rw [show rowOf v w (c2 :: t2) = levRef v w :: rowOf v (w ++ [c2]) t2 from rfl,
          rowOf_shape v (w ++ [c2]) t2]
    rw [hshape]
    simp only [nextColAux]
    rw [← levRef_concat_concat v w c1 c2]
    rw [← rowOf_shape v (w ++ [c2]) t2]
    rw [ih (w ++ [c2])]
    rw [← rowOf_shape (v ++ [c1]) (w ++ [c2]) t2]
    rfl

theorem editLoop_rowOf (s2 : List α) :
    ∀ (rem v : List α),
      editLoop s2 rem (rowOf v [] s2) v.length = rowOf (v ++ rem) [] s2 := by
  intro rem
  induction rem with
  | nil => intro v; simp [editLoop]
  | cons c1 rest ih =>
    intro v
    show editLoop s2 rest
      ((v.length + 1) :: nextColAux c1 s2 (rowOf v [] s2) (v.length + 1))
      (v.length + 1) = _
    have hleft : v.length + 1 = levRef (v ++ [c1]) [] := by
      rw [levRef_nil_right]; simp
    rw [hleft, nextColAux_rowOf c1 v s2 []]
    rw [← rowOf_shape (v ++ [c1]) [] s2]
    rw [show levRef (v ++ [c1]) [] = (v ++ [c1]).length from levRef_nil_right _]
    rw [ih (v ++ [c1])]
    simp

theorem rowOf_nil_range :
    ∀ (t w : List α), rowOf ([] : List α) w t = List.range' w.length (t.length + 1) := by
  intro t
  induction t with
  | nil => intro w; simp [rowOf, levRef_nil_left, List.range'_one]
  | cons c t2 ih =>
    intro w
    show levRef ([] : List α) w :: rowOf [] (w ++ [c]) t2 = _
    rw [levRef_nil_left, ih (w ++ [c])]
    simp [List.range'_succ]

theorem rowOf_getD (v : List α) :
    ∀ (t w : List α), (rowOf v w t).getD t.length 0 = levRef v (w ++ t) := by
  intro t
  induction t with
  | nil => intro w; simp [rowOf]
  | cons c t2 ih =>
    intro w
    show (levRef v w :: rowOf v (w ++ [c]) t2).getD (t2.length + 1) 0 = _
    rw [List.getD_cons_succ, ih (w ++ [c])]
    simp

/-- C9: the `EditDistance` column dynamic program computes exactly the
    unit-cost Levenshtein distance given by the standard reference recursion;
    in particular the distance of every sequence to itself is 0. -/
theorem claim_C9_edit_distance_is_levenshtein {α : Type} [DecidableEq α] :
    (∀ s1 s2 : List α, EditDistance s1 s2 = levRef s1 s2) ∧
    (∀ s : List α, EditDistance s s = 0) := by
  have hmain : ∀ s1 s2 : List α, EditDistance s1 s2 = levRef s1 s2 := by
    intro s1 s2
    unfold EditDistance
    have h0 : List.range (s2.length + 1) = rowOf ([] : List α) [] s2 := by
      rw [rowOf_nil_range s2 []]
      simp [List.range_eq_range']
    rw [h0]
    have hloop := editLoop_rowOf s2 s1 []
    simp only [List.length_nil, List.nil_append] at hloop
    rw [hloop]
    have hget := rowOf_getD s1 s2 []
    simp only [List.nil_append] at hget
    exact hget
  exact ⟨hmain, fun s => by rw [hmain s s, levRef_self]⟩

end EditDistanceModel

/-- DP state of the shared three-state affine-gap recurrence (spec section
    4.4): `M` ends in an aligned pair, `Q` ends in a subject-consuming gap
    (CIGAR kind `D`), `S` ends in a query-consuming gap (CIGAR kind `I`). -/
inductive DPSt
  | M
  | Q
  | S
deriving DecidableEq

/-- Inputs of one global-alignment call: query, subject, affine gap-open and
    gap-extend costs, and the substitution table viewed as a function. -/
structure AlignIn where
  q : List Char
  s : List Char
  gopen : Int
  gext : Int
  delta : Char → Char → Int

/-- Max over optional cell values; `none` is the disallowed-predecessor
    sentinel of the spec and never wins. -/
def omax : Option Int → Option Int → Option Int
  | none, b => b
  | some x, none => some x
  | some x, some y => some (max x y)

/-- Add a cost to an optional cell value. -/
def oadd (a : Option Int) (c : Int) : Option Int := a.map (· + c)

/-- Modelled from the spec: the DP matrix of `GlbAlign`, whose definition is
    not part of the provided sources (the header only declares it).  This is
    the shared recurrence of spec section 4.4 — `Match[i][j] =
    score(q[i-1], s[j-1]) + max` of the three states at `(i-1, j-1)`,
    `GapQ[i][j] = max(Match[i][j-1] - open, GapQ[i][j-1] - extend)`,
    `GapS[i][j] = max(Match[i-1][j] - open, GapS[i-1][j] - extend)` — with
    `none` as the sentinel for disallowed predecessors, which also yields the
    cumulative gap costs on row 0 and column 0 required for global
    alignment.  `fuel` is a structural recursion bound: any `fuel > i + j`
    computes cell `(i, j)` (see `dpF_stable`). -/
def dpF (P : AlignIn) : Nat → Nat → Nat → DPSt → Option Int
  | 0, _, _, _ => none
  | _ + 1, 0, 0, .M => some 0
  | _ + 1, 0, _ + 1, .M => none
  | _ + 1, _ + 1, 0, .M => none
  | n + 1, i + 1, j + 1, .M =>
      (omax (omax (dpF P n i j .M) (dpF P n i j .Q)) (dpF P n i j .S)).map
        (· + P.delta (P.q.getD i 'A') (P.s.getD j 'A'))
  | _ + 1, _, 0, .Q => none
  | n + 1, i, j + 1, .Q =>
      omax (oadd (dpF P n i j .M) (-P.gopen)) (oadd (dpF P n i j .Q) (-P.gext))
  | _ + 1, 0, _, .S => none
  | n + 1, i + 1, j, .S =>
      omax (oadd (dpF P n i j .M) (-P.gopen)) (oadd (dpF P n i j .S) (-P.gext))

/-- The DP cell `(i, j)` in state `st`, computed with just enough fuel. -/
def dp (P : AlignIn) (i j : Nat) (st : DPSt) : Option Int := dpF P (i + j + 1) i j st

theorem dpF_stable (P : AlignIn) :
    ∀ (k n m i j : Nat) (st : DPSt), i + j ≤ k → i + j < n → i + j < m →
      dpF P n i j st = dpF P m i j st := by
  intro k
  induction k with
  | zero =>
    intro n m i j st hk hn hm
    obtain ⟨n1, rfl⟩ : ∃ n1, n = n1 + 1 := ⟨n - 1, by omega⟩
    obtain ⟨m1, rfl⟩ : ∃ m1, m = m1 + 1 := ⟨m - 1, by omega⟩
    obtain rfl : i = 0 := by omega
    obtain rfl : j = 0 := by omega
    cases st <;> rfl
  | succ k ih =>
    intro n m i j st hk hn hm
    obtain ⟨n1, rfl⟩ : ∃ n1, n = n1 + 1 := ⟨n - 1, by omega⟩
    obtain ⟨m1, rfl⟩ : ∃ m1, m = m1 + 1 := ⟨m - 1, by omega⟩
    cases st
    case M =>
      cases i with
      | zero =>
        cases j with
        | zero => rfl
        | succ j => rfl
      | succ i =>
        cases j with
        | zero => rfl
        | succ j =>
          simp only [dpF]
          rw [ih n1 m1 i j DPSt.M (by omega) (by omega) (by omega),
            ih n1 m1 i j DPSt.Q (by omega) (by omega) (by omega),
            ih n1 m1 i j DPSt.S (by omega) (by omega) (by omega)]
    case Q =>
      cases j with
      | zero => cases i <;> rfl
      | succ j =>
        simp only [dpF]
        rw [ih n1 m1 i j DPSt.M (by omega) (by omega) (by omega),
          ih n1 m1 i j DPSt.Q (by omega) (by omega) (by omega)]
    case S =>
      cases i with
      | zero => cases j <;> rfl
      | succ i =>
        simp only [dpF]
        rw [ih n1 m1 i j DPSt.M (by omega) (by omega) (by omega),
          ih n1 m1 i j DPSt.S (by omega) (by omega) (by omega)]

theorem dpF_eq_dp (P : AlignIn) (n i j : Nat) (st : DPSt) (h : i + j < n) :
    dpF P n i j st = dp P i j st :=
  dpF_stable P (i + j) n (i + j + 1) i j st (le_refl _) h (by omega)

theorem dp_eq_M (P : AlignIn) (i j : Nat) :
    dp P (i + 1) (j + 1) DPSt.M =
      (omax (omax (dp P i j DPSt.M) (dp P i j DPSt.Q)) (dp P i j DPSt.S)).map
        (· + P.delta (P.q.getD i 'A') (P.s.getD j 'A')) := by
  rw [(dpF_eq_dp P (i + j + 2 + 1) (i + 1) (j + 1) DPSt.M (by omega)).symm]
  simp only [dpF]
  rw [dpF_eq_dp P (i + j + 2) i j DPSt.M (by omega),
    dpF_eq_dp P (i + j + 2) i j DPSt.Q (by omega),
    dpF_eq_dp P (i + j + 2) i j DPSt.S (by omega)]

theorem dp_eq_Q (P : AlignIn) (i j : Nat) :
    dp P i (j + 1) DPSt.Q =
      omax (oadd (dp P i j DPSt.M) (-P.gopen)) (oadd (dp P i j DPSt.Q) (-P.gext)) := by
  rw [(dpF_eq_dp P (i + j + 1 + 1) i (j + 1) DPSt.Q (by omega)).symm]
  simp only [dpF]
  rw [dpF_eq_dp P (i + j + 1) i j DPSt.M (by omega),
    dpF_eq_dp P (i + j + 1) i j DPSt.Q (by omega)]

theorem dp_eq_S (P : AlignIn) (i j : Nat) :
    dp P (i + 1) j DPSt.S =
      omax (oadd (dp P i j DPSt.M) (-P.gopen)) (oadd (dp P i j DPSt.S) (-P.gext)) := by
  rw [(dpF_eq_dp P (i + j + 1 + 1) (i + 1) j DPSt.S (by omega)).symm]
  simp only [dpF]
  rw [dpF_eq_dp P (i + j + 1) i j DPSt.M (by omega),
    dpF_eq_dp P (i + j + 1) i j DPSt.S (by omega)]

theorem dp_M_zero_zero (P : AlignIn) : dp P 0 0 DPSt.M = some 0 := rfl

theorem dp_M_row0 (P : AlignIn) (j : Nat) : dp P 0 (j + 1) DPSt.M = none := rfl

theorem dp_M_col0 (P : AlignIn) (i : Nat) : dp P (i + 1) 0 DPSt.M = none := rfl

theorem dp_Q_col0 (P : AlignIn) (i : Nat) : dp P i 0 DPSt.Q = none := by
  cases i <;> rfl

theorem dp_S_row0 (P : AlignIn) (j : Nat) : dp P 0 j DPSt.S = none := by
  cases j <;> rfl

theorem omax_eq_none_iff (a b : Option Int) :
    omax a b = none ↔ a = none ∧ b = none := by
  cases a <;> cases b <;> simp [omax]

theorem oadd_eq_none_iff (a : Option Int) (c : Int) :
    oadd a c = none ↔ a = none := by
  cases a <;> simp [oadd]

theorem dp_Q_row0_some (P : AlignIn) : ∀ j, dp P 0 (j + 1) DPSt.Q ≠ none := by
  intro j
  induction j with
  | zero =>
    rw [dp_eq_Q]
    intro h
    rw [omax_eq_none_iff, oadd_eq_none_iff, oadd_eq_none_iff] at h
    rw [dp_M_zero_zero P] at h
    exact Option.some_ne_none 0 h.1
  | succ j ih =>
    rw [dp_eq_Q]
    intro h
    rw [omax_eq_none_iff, oadd_eq_none_iff, oadd_eq_none_iff] at h
    exact ih h.2

theorem dp_S_col0_some (P : AlignIn) : ∀ i, dp P (i + 1) 0 DPSt.S ≠ none := by
  intro i
  induction i with
  | zero =>
    rw [dp_eq_S]
    intro h
    rw [omax_eq_none_iff, oadd_eq_none_iff, oadd_eq_none_iff] at h
    rw [dp_M_zero_zero P] at h
    exact Option.some_ne_none 0 h.1
  | succ i ih =>
    rw [dp_eq_S]
    intro h
    rw [omax_eq_none_iff, oadd_eq_none_iff, oadd_eq_none_iff] at h
    exact ih h.2

theorem dp_M_some (P : AlignIn) : ∀ i j, dp P (i + 1) (j + 1) DPSt.M ≠ none := by
  intro i
  induction i with
  | zero =>
    intro j
    rw [dp_eq_M]
    intro h
    rw [Option.map_eq_none', omax_eq_none_iff, omax_eq_none_iff] at h
    cases j with
    | zero => exact Option.some_ne_none 0 (dp_M_zero_zero P ▸ h.1.1)
    | succ j => exact dp_Q_row0_some P j h.1.2
  | succ i ih =>
    intro j
    rw [dp_eq_M]
    intro h
    rw [Option.map_eq_none', omax_eq_none_iff, omax_eq_none_iff] at h
    cases j with
    | zero => exact dp_S_col0_some P i h.2
    | succ j => exact ih j h.1.1

/-- Comparison of optional cell values used by traceback: a `none` sentinel
    never beats a present value. -/
def oge : Option Int → Option Int → Bool
  | _, none => true
  | none, some _ => false
  | some x, some y => decide (y ≤ x)

theorem oge_none_right (a : Option Int) : oge a none = true := by
  cases a <;> rfl

theorem oge_true_none_left {b : Option Int} (h : oge none b = true) : b = none := by
  cases b with
  | none => rfl
  | some x => simp [oge] at h

theorem oge_false_some_right {a b : Option Int} (h : oge a b = false) : b ≠ none := by
  intro hb
  rw [hb, oge_none_right a] at h
  exact Bool.noConfusion h

/-- Modelled from the spec: the state preference used by traceback when it
    chooses, at cell `(i, j)`, the predecessor state that produced the
    winning value (fixed preference Match, then GapQ, then GapS when equal,
    per the requirement of a fixed documented preference order). -/
def pickBest (P : AlignIn) (i j : Nat) : DPSt :=
  if oge (dp P i j DPSt.M) (dp P i j DPSt.Q) &&
      oge (dp P i j DPSt.M) (dp P i j DPSt.S) then DPSt.M
  else if oge (dp P i j DPSt.Q) (dp P i j DPSt.S) then DPSt.Q
  else DPSt.S

/-- Modelled from the spec: the predecessor choice of a `GapQ` traceback
    step — gap open from `Match[i][j-1]` versus gap extension from
    `GapQ[i][j-1]`. -/
def pickQ (P : AlignIn) (i j : Nat) : DPSt :=
  if oge (oadd (dp P i j DPSt.M) (-P.gopen)) (oadd (dp P i j DPSt.Q) (-P.gext))
  then DPSt.M else DPSt.Q

/-- Modelled from the spec: the predecessor choice of a `GapS` traceback
    step. -/
def pickS (P : AlignIn) (i j : Nat) : DPSt :=
  if oge (oadd (dp P i j DPSt.M) (-P.gopen)) (oadd (dp P i j DPSt.S) (-P.gext))
  then DPSt.M else DPSt.S

theorem pickBest_some (P : AlignIn) (i j : Nat)
    (h : omax (omax (dp P i j DPSt.M) (dp P i j DPSt.Q)) (dp P i j DPSt.S) ≠ none) :
    dp P i j (pickBest P i j) ≠ none := by
  unfold pickBest
  split_ifs with h1 h2
  · intro hM
    rw [Bool.and_eq_true] at h1
    have hQ := oge_true_none_left (hM ▸ h1.1)
    have hS := oge_true_none_left (hM ▸ h1.2)
    exact h (by rw [omax_eq_none_iff, omax_eq_none_iff]; exact ⟨⟨hM, hQ⟩, hS⟩)
  · intro hQ
    have hS := oge_true_none_left (hQ ▸ h2)
    apply h1
    rw [hQ, hS, Bool.and_eq_true, oge_none_right]
    exact ⟨rfl, rfl⟩
  · intro hS
    rw [hS, oge_none_right] at h2
    exact h2 rfl

theorem pickQ_some (P : AlignIn) (i j : Nat) (h : dp P i (j + 1) DPSt.Q ≠ none) :
    dp P i j (pickQ P i j) ≠ none := by
  rw [dp_eq_Q] at h
  unfold pickQ
  split_ifs with h1
  · intro hM
    apply h
    rw [omax_eq_none_iff, oadd_eq_none_iff, oadd_eq_none_iff]
    refine ⟨hM, ?_⟩
    have h2 := hM ▸ h1
    rw [show oadd (none : Option Int) (-P.gopen) = none from rfl] at h2
    exact (oadd_eq_none_iff _ _).mp (oge_true_none_left h2)
  · intro hQ
    apply oge_false_some_right (Bool.eq_false_iff.mpr h1)
    rw [hQ]
    rfl

theorem pickS_some (P : AlignIn) (i j : Nat) (h : dp P (i + 1) j DPSt.S ≠ none) :
    dp P i j (pickS P i j) ≠ none := by
  rw [dp_eq_S] at h
  unfold pickS
  split_ifs with h1
  · intro hM
    apply h
    rw [omax_eq_none_iff, oadd_eq_none_iff, oadd_eq_none_iff]
    refine ⟨hM, ?_⟩
    have h2 := hM ▸ h1
    rw [show oadd (none : Option Int) (-P.gopen) = none from rfl] at h2
    exact (oadd_eq_none_iff _ _).mp (oge_true_none_left h2)
  · intro hS
    apply oge_false_some_right (Bool.eq_false_iff.mpr h1)
    rw [hS]
    rfl

/-- Modelled from the spec: the traceback of `GlbAlign` — from a cell and a
    state, follow the predecessor state that produced the winning value,
    emitting one alignment column per step (`M` aligned pair, `D`
    subject-consuming gap, `I` query-consuming gap) until cell `(0, 0)`.
    `fuel ≥ i + j` suffices since every step consumes at least one
    coordinate unit. -/
def tbF (P : AlignIn) : Nat → Nat → Nat → DPSt → List Char
  | 0, _, _, _ => []
  | _ + 1, 0, 0, _ => []
  | n + 1, i + 1, j + 1, .M => 'M' :: tbF P n i j (pickBest P i j)
  | _ + 1, _ + 1, 0, .M => []
  | _ + 1, 0, _ + 1, .M => []
  | n + 1, i, j + 1, .Q => 'D' :: tbF P n i j (pickQ P i j)
  | _ + 1, _ + 1, 0, .Q => []
  | n + 1, i + 1, j, .S => 'I' :: tbF P n i j (pickS P i j)
  | _ + 1, 0, _ + 1, .S => []

/-- Number of query positions consumed by a column list: `M` and `I`. -/
def countQuery (l : List Char) : Nat := l.count 'M' + l.count 'I'

/-- Number of subject positions consumed by a column list: `M` and `D`. -/
def countSubj (l : List Char) : Nat := l.count 'M' + l.count 'D'

theorem tbF_counts (P : AlignIn) :
    ∀ (fuel i j : Nat) (st : DPSt), i + j ≤ fuel → dp P i j st ≠ none →
      countQuery (tbF P fuel i j st) = i ∧ countSubj (tbF P fuel i j st) = j := by
  intro fuel
  induction fuel with
  | zero =>
    intro i j st hle hsome
    obtain rfl : i = 0 := by omega
    obtain rfl : j = 0 := by omega
    exact ⟨rfl, rfl⟩
  | succ n ih =>
    intro i j st hle hsome
    cases st
    case M =>
      cases i with
      | zero =>
        cases j with
        | zero => exact ⟨rfl, rfl⟩
        | succ j => exact absurd (dp_M_row0 P j) hsome
      | succ i =>
        cases j with
        | zero => exact absurd (dp_M_col0 P i) hsome
        | succ j =>
          rw [dp_eq_M] at hsome
          have h3 : omax (omax (dp P i j DPSt.M) (dp P i j DPSt.Q)) (dp P i j DPSt.S)
              ≠ none := by
            intro h0
            exact hsome (by rw [h0]; rfl)
          have hpick := pickBest_some P i j h3
          have hc := ih i j (pickBest P i j) (by omega) hpick
          simp [tbF, countQuery, countSubj, List.count_cons] at hc ⊢
          omega
    case Q =>
      cases j with
      | zero => exact absurd (dp_Q_col0 P i) hsome
      | succ j =>
        have hpick := pickQ_some P i j hsome
        have hc := ih i j (pickQ P i j) (by omega) hpick
        simp [tbF, countQuery, countSubj, List.count_cons] at hc ⊢
        omega
    case S =>
      cases i with
      | zero => exact absurd (dp_S_row0 P j) hsome
      | succ i =>
        have hpick := pickS_some P i j hsome
        have hc := ih i j (pickS P i j) (by omega) hpick
        simp [tbF, countQuery, countSubj, List.count_cons] at hc ⊢
        omega

/-- Modelled from the spec: run-length encoding of a column list into CIGAR
    elements, merging adjacent same-kind columns so that no two adjacent
    runs share a kind. -/
def toRuns : List Char → List SElement
  | [] => []
  | c :: rest =>
      match toRuns rest with
      | [] => [⟨1, c⟩]
      | el :: rs =>
          if el.m_type = c then ⟨el.m_len + 1, c⟩ :: rs else ⟨1, c⟩ :: el :: rs

/-- Total run length of the elements of a given kind. -/
def sumType (c : Char) (els : List SElement) : Int :=
  els.foldr (fun e acc => (if e.m_type = c then e.m_len else 0) + acc) 0

theorem sumType_cons (c : Char) (e : SElement) (els : List SElement) :
    sumType c (e :: els) = (if e.m_type = c then e.m_len else 0) + sumType c els := rfl

theorem count_cons_int (c d : Char) (rest : List Char) :
    (((d :: rest).count c : Nat) : Int) =
      (rest.count c : Int) + (if d = c then 1 else 0) := by
  by_cases hdc : d = c <;> simp [List.count_cons, hdc]

theorem sumType_toRuns (c : Char) :
    ∀ l : List Char, sumType c (toRuns l) = (l.count c : Int) := by
  intro l
  induction l with
  | nil => rfl
  | cons d rest ih =>
    rw [count_cons_int]
    cases htr : toRuns rest with
    | nil =>
      have h0 : ((rest.count c) : Int) = 0 := by rw [← ih, htr]; rfl
      have hrun : toRuns (d :: rest) = [⟨1, d⟩] := by
        simp only [toRuns, htr]
      rw [hrun, h0, sumType_cons]
      by_cases hdc : d = c <;> simp [sumType, hdc]
    | cons el rs =>
      have ih2 : (if el.m_type = c then el.m_len else 0) + sumType c rs =
          (rest.count c : Int) := by
        rw [← ih, htr, sumType_cons]
      by_cases hty : el.m_type = d
      · have hrun : toRuns (d :: rest) = ⟨el.m_len + 1, d⟩ :: rs := by
          simp only [toRuns, htr, if_pos hty]
        rw [hty] at ih2
        rw [hrun, sumType_cons]
        dsimp only
        by_cases hdc : d = c
        · simp only [if_pos hdc] at ih2 ⊢
          omega
        · simp only [if_neg hdc] at ih2 ⊢
          omega
      · have hrun : toRuns (d :: rest) = ⟨1, d⟩ :: el :: rs := by
          simp only [toRuns, htr, if_neg hty]
        rw [hrun, sumType_cons, sumType_cons, ih2]
        exact add_comm _ _

/-- Modelled from the spec: the error taxonomy of spec section 7; the
    implementations that would raise these are not part of the provided
    sources. -/
inductive AlignError
  | InvalidInput
  | InvalidSymbol
  | BandOutOfRange
  | InconsistentSplice
  | ScoreOverflow
deriving DecidableEq

/-- Modelled from the spec: the successful core of `GlbAlign` — fill the DP,
    read the optimum at cell `(querylen, subjectlen)` only, trace back to
    `(0, 0)`, reverse the emitted columns into forward order and run-length
    encode them into a descriptor covering both sequences in full. -/
def GlbAlignRun (P : AlignIn) : CCigar :=
  let qlen := P.q.length
  let slen := P.s.length
  let cols := (tbF P (qlen + slen) qlen slen (pickBest P qlen slen)).reverse
  ⟨toRuns cols, 0, Int.ofNat qlen - 1, 0, Int.ofNat slen - 1⟩

/-- Modelled from the spec: the entry point `GlbAlign` (Needleman-Wunsch,
    declared but not defined in the provided sources), with the failure
    semantics of spec section 4.4/7: non-positive query or subject length
    fails with `InvalidInput` and no alignment is attempted. -/
def GlbAlign (q s : List Char) (gopen gext : Int) (delta : Char → Char → Int) :
    Except AlignError CCigar :=
  if q.length = 0 ∨ s.length = 0 then Except.error AlignError.InvalidInput
  else Except.ok (GlbAlignRun ⟨q, s, gopen, gext, delta⟩)

/-- Modelled from the spec: the entry point `LclAlign` (Smith-Waterman,
    declared but not defined in the provided sources).  Only its failure
    semantics — `InvalidInput` on non-positive input length, before any
    alignment work — is needed by a claim; the local-alignment body itself is
    beyond the claims and is represented by the shared alignment core. -/
def LclAlign (q s : List Char) (gopen gext : Int) (delta : Char → Char → Int) :
    Except AlignError CCigar :=
  if q.length = 0 ∨ s.length = 0 then Except.error AlignError.InvalidInput
  else Except.ok (GlbAlignRun ⟨q, s, gopen, gext, delta⟩)

/-- Modelled from the spec: the entry point `VariBandAlign` (variable-band
    Smith-Waterman, declared but not defined in the provided sources).  Only
    its `InvalidInput` failure semantics is needed by a claim; the banded
    body is represented by the shared alignment core. -/
def VariBandAlign (q s : List Char) (gopen gext : Int)
    (delta : Char → Char → Int) (subject_limits : List (Int × Int)) :
    Except AlignError CCigar :=
  if q.length = 0 ∨ s.length = 0 then Except.error AlignError.InvalidInput
  else Except.ok (GlbAlignRun ⟨q, s, gopen, gext, delta⟩)

/-- Modelled from the spec: the entry point `BandAlign` (fixed-band
    Smith-Waterman, declared but not defined in the provided sources).  Only
    its `InvalidInput` failure semantics is needed by a claim; the banded
    body is represented by the shared alignment core. -/
def BandAlign (q s : List Char) (gopen gext : Int)
    (delta : Char → Char → Int) (band : Int) : Except AlignError CCigar :=
  if q.length = 0 ∨ s.length = 0 then Except.error AlignError.InvalidInput
  else Except.ok (GlbAlignRun ⟨q, s, gopen, gext, delta⟩)

/-- C4: every alignment entry point fails with `InvalidInput`, producing no
    descriptor, whenever the query or the subject is empty (the non-positive
    length case of the C++ signatures). -/
theorem claim_C4_invalid_input (q s : List Char) (gopen gext : Int)
    (delta : Char → Char → Int) (limits : List (Int × Int)) (band : Int)
    (h : q.length = 0 ∨ s.length = 0) :
    GlbAlign q s gopen gext delta = Except.error AlignError.InvalidInput ∧
    LclAlign q s gopen gext delta = Except.error AlignError.InvalidInput ∧
    VariBandAlign q s gopen gext delta limits = Except.error AlignError.InvalidInput ∧
    BandAlign q s gopen gext delta band = Except.error AlignError.InvalidInput := by
  have h2 : q = [] ∨ s = [] := by
    rcases h with h | h
    · exact Or.inl (List.length_eq_zero.mp h)
    · exact Or.inr (List.length_eq_zero.mp h)
  refine ⟨?_, ?_, ?_, ?_⟩ <;>
    · simp [GlbAlign, LclAlign, VariBandAlign, BandAlign]
      tauto

/-- C4 witness: the entry points at an empty query and one-symbol subject. -/
theorem claim_C4_invalid_input_witness :
    (([] : List Char).length = 0 ∨ (['A'] : List Char).length = 0) ∧
    GlbAlign [] ['A'] 5 1 (fun _ _ => 1) = Except.error AlignError.InvalidInput ∧
    LclAlign [] ['A'] 5 1 (fun _ _ => 1) = Except.error AlignError.InvalidInput ∧
    VariBandAlign [] ['A'] 5 1 (fun _ _ => 1) [] = Except.error AlignError.InvalidInput ∧
    BandAlign [] ['A'] 5 1 (fun _ _ => 1) 0 = Except.error AlignError.InvalidInput :=
  ⟨Or.inl rfl,
   claim_C4_invalid_input [] ['A'] 5 1 (fun _ _ => 1) [] 0 (Or.inl rfl)⟩

/-- C2: for every non-empty query and subject, the descriptor returned by
    `GlbAlign` has `M`-plus-`I` run lengths summing to exactly the query
    length and `M`-plus-`D` run lengths summing to exactly the subject
    length. -/
theorem claim_C2_global_descriptor_spans (q s : List Char) (gopen gext : Int)
    (delta : Char → Char → Int) (hq : 0 < q.length) (hs : 0 < s.length) :
    GlbAlign q s gopen gext delta =
      Except.ok (GlbAlignRun ⟨q, s, gopen, gext, delta⟩) ∧
    sumType 'M' (GlbAlignRun ⟨q, s, gopen, gext, delta⟩).m_elements +
      sumType 'I' (GlbAlignRun ⟨q, s, gopen, gext, delta⟩).m_elements =
      (q.length : Int) ∧
    sumType 'M' (GlbAlignRun ⟨q, s, gopen, gext, delta⟩).m_elements +
      sumType 'D' (GlbAlignRun ⟨q, s, gopen, gext, delta⟩).m_elements =
      (s.length : Int) := by
  refine ⟨?_, ?_⟩
  · unfold GlbAlign
    rw [if_neg (by omega : ¬(q.length = 0 ∨ s.length = 0))]
  obtain ⟨q1, hq1⟩ : ∃ n, q.length = n + 1 := ⟨q.length - 1, by omega⟩
  obtain ⟨s1, hs1⟩ : ∃ n, s.length = n + 1 := ⟨s.length - 1, by omega⟩
  have hMsome : dp ⟨q, s, gopen, gext, delta⟩ q.length s.length DPSt.M ≠ none := by
    rw [hq1, hs1]
    exact dp_M_some ⟨q, s, gopen, gext, delta⟩ q1 s1
  have h3 : omax (omax (dp ⟨q, s, gopen, gext, delta⟩ q.length s.length DPSt.M)
      (dp ⟨q, s, gopen, gext, delta⟩ q.length s.length DPSt.Q))
      (dp ⟨q, s, gopen, gext, delta⟩ q.length s.length DPSt.S) ≠ none := by
    intro h0
    rw [omax_eq_none_iff, omax_eq_none_iff] at h0
    exact hMsome h0.1.1
  have hpick := pickBest_some ⟨q, s, gopen, gext, delta⟩ q.length s.length h3
  have hcounts := tbF_counts ⟨q, s, gopen, gext, delta⟩ (q.length + s.length)
    q.length s.length _ (le_refl _) hpick
  have hel : (GlbAlignRun ⟨q, s, gopen, gext, delta⟩).m_elements =
      toRuns ((tbF ⟨q, s, gopen, gext, delta⟩ (q.length + s.length) q.length
        s.length (pickBest ⟨q, s, gopen, gext, delta⟩ q.length s.length)).reverse) :=
    rfl
  unfold countQuery countSubj at hcounts
  constructor
  · rw [hel, sumType_toRuns, sumType_toRuns, List.count_reverse, List.count_reverse]
    omega
  · rw [hel, sumType_toRuns, sumType_toRuns, List.count_reverse, List.count_reverse]
    omega

/-- C2 witness: the span theorem at the concrete one-symbol alignment call
    `GlbAlign("A", "A")` with a unit match/mismatch table. -/
theorem claim_C2_global_descriptor_spans_witness :
    0 < (['A'] : List Char).length ∧
    (GlbAlign ['A'] ['A'] 5 1 (fun a b => if a = b then 1 else -1) =
      Except.ok (GlbAlignRun ⟨['A'], ['A'], 5, 1, fun a b => if a = b then 1 else -1⟩) ∧
    sumType 'M' (GlbAlignRun ⟨['A'], ['A'], 5, 1,
        fun a b => if a = b then 1 else -1⟩).m_elements +
      sumType 'I' (GlbAlignRun ⟨['A'], ['A'], 5, 1,
        fun a b => if a = b then 1 else -1⟩).m_elements =
      ((['A'] : List Char).length : Int) ∧
    sumType 'M' (GlbAlignRun ⟨['A'], ['A'], 5, 1,
        fun a b => if a = b then 1 else -1⟩).m_elements +
      sumType 'D' (GlbAlignRun ⟨['A'], ['A'], 5, 1,
        fun a b => if a = b then 1 else -1⟩).m_elements =
      ((['A'] : List Char).length : Int)) :=
  ⟨by decide,
   claim_C2_global_descriptor_spans ['A'] ['A'] 5 1
     (fun a b => if a = b then 1 else -1) (by decide) (by decide)⟩
